import Mathlib

/-!
Verification of the storage layer and websocket broadcast loop of the
financehub backend (`storage.ts`, `routes.ts`, table schemas).

Modelling conventions:
* Postgres tables are Lean structures holding a list of rows plus the
  next value of the `serial` id column; `db.insert ... returning` and
  `db.update` become pure state-passing functions.
* `timestamp` columns are `Nat` (milliseconds); every operation that
  calls `new Date()` takes the current clock value `now` explicitly.
* `decimal(p, s)` columns are exact rationals (`Rat`), matching the
  spec's "monetary/rate fields are exact decimal, never binary float";
  `pgDec2` renders a value the way Postgres prints a `numeric(_, 2)`
  column (two fraction digits), which is what drizzle hands back to
  TypeScript as a string.
* `select ... where eq` with a single row expected becomes `List.find?`;
  `orderBy(desc(col))` becomes an insertion sort on the key, descending.
-/

/-! ### Descending insertion sort (model of `orderBy(desc(col))`) -/

def insertDescBy (key : α → Nat) (a : α) : List α → List α
  | [] => [a]
  | b :: l => if key b ≤ key a then a :: b :: l else b :: insertDescBy key a l

def sortDescBy (key : α → Nat) (l : List α) : List α :=
  l.foldr (insertDescBy key) []

/-! ### Postgres `numeric(_, 2)` rendering

`pgRound2 q` is the integer number of hundredths Postgres stores for a
`numeric(p, 2)` column (round half away from zero); `pgDec2 q` is the
string it prints, e.g. `pgDec2 (1/2) = "0.50"`. -/

def pgRound2 (q : ℚ) : Int :=
  if 0 ≤ q then (q * 100 + 1/2).floor else -((-q) * 100 + 1/2).floor

def twoDigits (n : Nat) : String :=
  if n < 10 then "0" ++ toString n else toString n

def pgDec2 (q : ℚ) : String :=
  let n := pgRound2 q
  let sign := if n < 0 then "-" else ""
  let m := n.natAbs
  sign ++ toString (m / 100) ++ "." ++ twoDigits (m % 100)

/-! ### Entity rows (table schemas from the shared schema file) -/

structure Stock where
  id : Nat
  symbol : String
  company : String
  price : ℚ
  change : ℚ
  changePercent : ℚ
  volume : String
  marketCap : Option String
  peRatio : Option ℚ
  high52 : Option ℚ
  low52 : Option ℚ
  updatedAt : Nat
  deriving DecidableEq, Repr

structure InsertStock where
  symbol : String
  company : String
  price : ℚ
  change : ℚ
  changePercent : ℚ
  volume : String
  marketCap : Option String
  peRatio : Option ℚ
  high52 : Option ℚ
  low52 : Option ℚ
  deriving DecidableEq, Repr

structure CurrencyPair where
  id : Nat
  symbol : String
  base : String
  quote : String
  rate : ℚ
  change : ℚ
  changePercent : ℚ
  margin : ℚ
  updatedAt : Nat
  deriving DecidableEq, Repr

structure InsertCurrencyPair where
  symbol : String
  base : String
  quote : String
  rate : ℚ
  change : ℚ
  changePercent : ℚ
  margin : ℚ
  deriving DecidableEq, Repr

structure NewsArticle where
  id : Nat
  title : String
  summary : String
  content : Option String
  source : String
  imageUrl : Option String
  publishedAt : Nat
  createdAt : Nat
  deriving DecidableEq, Repr

structure InsertNewsArticle where
  title : String
  summary : String
  content : Option String
  source : String
  imageUrl : Option String
  publishedAt : Nat
  deriving DecidableEq, Repr

structure UserFavorite where
  id : Nat
  userId : String
  itemType : String
  itemId : String
  createdAt : Nat
  deriving DecidableEq, Repr

structure InsertUserFavorite where
  userId : String
  itemType : String
  itemId : String
  deriving DecidableEq, Repr

structure MarketIndex where
  id : Nat
  name : String
  symbol : String
  value : ℚ
  change : ℚ
  changePercent : ℚ
  updatedAt : Nat
  deriving DecidableEq, Repr

structure InsertMarketIndex where
  name : String
  symbol : String
  value : ℚ
  change : ℚ
  changePercent : ℚ
  deriving DecidableEq, Repr

structure User where
  id : String
  email : Option String
  firstName : Option String
  lastName : Option String
  profileImageUrl : Option String
  role : String
  createdAt : Nat
  updatedAt : Nat
  deriving DecidableEq, Repr

/-- A table is its rows plus the next value of the `serial` id column. -/
structure StocksTable where
  rows : List Stock
  nextId : Nat
  deriving DecidableEq, Repr

structure CurrencyTable where
  rows : List CurrencyPair
  nextId : Nat
  deriving DecidableEq, Repr

structure NewsTable where
  rows : List NewsArticle
  nextId : Nat
  deriving DecidableEq, Repr

structure FavoritesTable where
  rows : List UserFavorite
  nextId : Nat
  deriving DecidableEq, Repr

structure IndicesTable where
  rows : List MarketIndex
  nextId : Nat
  deriving DecidableEq, Repr

structure UsersTable where
  rows : List User
  deriving DecidableEq, Repr

def emptyStocks : StocksTable := ⟨[], 1⟩

def emptyCurrencies : CurrencyTable := ⟨[], 1⟩

def emptyNews : NewsTable := ⟨[], 1⟩

def emptyFavorites : FavoritesTable := ⟨[], 1⟩

def emptyIndices : IndicesTable := ⟨[], 1⟩

/-! ### Storage operations (`DatabaseStorage` in `storage.ts`)

Each method of `DatabaseStorage` becomes a pure function over the table
state; methods that call `new Date()` take `now : Nat`.  Reads return the
query result; writes return the updated table (and the `returning` row
where the source returns one). -/

/-- Storage-layer failure: Postgres rejects an insert/update that violates
a unique constraint not covered by the statement's conflict target. -/
inductive DBErr where
  | uniqueViolation
  deriving DecidableEq, Repr

deriving instance DecidableEq for Except

/-- `getUser(id)`: `select from users where eq(users.id, id)`, first row. -/
def getUser (t : UsersTable) (id : String) : Option User :=
  t.rows.find? fun u => u.id == id

/-- `getStocks()`: all rows ordered by `updatedAt` descending. -/
def getStocks (t : StocksTable) : List Stock :=
  sortDescBy (fun s => s.updatedAt) t.rows

/-- `getStock(id)`: first row with matching id. -/
def getStock (t : StocksTable) (id : Nat) : Option Stock :=
  t.rows.find? fun s => s.id == id

/-- `getStockBySymbol(symbol)`: first row with matching symbol. -/
def getStockBySymbol (t : StocksTable) (symbol : String) : Option Stock :=
  t.rows.find? fun s => s.symbol == symbol

/-- The row produced when an insert of `s` conflicts on `stocks.symbol`
and the `onConflictDoUpdate` set clause overwrites the existing row `r`:
every provided field is replaced, `updatedAt` is set to the current time,
and the serial `id` is kept. -/
def overwriteStock (r : Stock) (s : InsertStock) (now : Nat) : Stock :=
  { id := r.id, symbol := s.symbol, company := s.company, price := s.price,
    change := s.change, changePercent := s.changePercent, volume := s.volume,
    marketCap := s.marketCap, peRatio := s.peRatio, high52 := s.high52,
    low52 := s.low52, updatedAt := now }

/-- The fresh row inserted when no row with `s.symbol` exists. -/
def freshStock (id : Nat) (s : InsertStock) (now : Nat) : Stock :=
  { id := id, symbol := s.symbol, company := s.company, price := s.price,
    change := s.change, changePercent := s.changePercent, volume := s.volume,
    marketCap := s.marketCap, peRatio := s.peRatio, high52 := s.high52,
    low52 := s.low52, updatedAt := now }

/-- `upsertStock(stock)`: insert with `onConflictDoUpdate` targeting the
unique `stocks.symbol` column; both paths stamp `updatedAt = new Date()`. -/
def upsertStock (t : StocksTable) (now : Nat) (s : InsertStock) :
    StocksTable × Stock :=
  match t.rows.find? (fun r => r.symbol == s.symbol) with
  | some r =>
      let r' := overwriteStock r s now
      (⟨t.rows.map fun x => if x.symbol == s.symbol then overwriteStock x s now else x,
        t.nextId⟩, r')
  | none =>
      let r' := freshStock t.nextId s now
      (⟨t.rows ++ [r'], t.nextId + 1⟩, r')

/-- `getCurrencyPairs()`: all rows ordered by `updatedAt` descending. -/
def getCurrencyPairs (t : CurrencyTable) : List CurrencyPair :=
  sortDescBy (fun p => p.updatedAt) t.rows

/-- `getCurrencyPair(id)`: first row with matching id. -/
def getCurrencyPair (t : CurrencyTable) (id : Nat) : Option CurrencyPair :=
  t.rows.find? fun p => p.id == id

/-- `getCurrencyPairBySymbol(symbol)`: first row with matching symbol. -/
def getCurrencyPairBySymbol (t : CurrencyTable) (symbol : String) :
    Option CurrencyPair :=
  t.rows.find? fun p => p.symbol == symbol

def overwritePair (r : CurrencyPair) (p : InsertCurrencyPair) (now : Nat) :
    CurrencyPair :=
  { id := r.id, symbol := p.symbol, base := p.base, quote := p.quote,
    rate := p.rate, change := p.change, changePercent := p.changePercent,
    margin := p.margin, updatedAt := now }

def freshPair (id : Nat) (p : InsertCurrencyPair) (now : Nat) : CurrencyPair :=
  { id := id, symbol := p.symbol, base := p.base, quote := p.quote,
    rate := p.rate, change := p.change, changePercent := p.changePercent,
    margin := p.margin, updatedAt := now }

/-- `upsertCurrencyPair(pair)`: insert with `onConflictDoUpdate` targeting
the unique `currency_pairs.symbol` column. -/
def upsertCurrencyPair (t : CurrencyTable) (now : Nat) (p : InsertCurrencyPair) :
    CurrencyTable × CurrencyPair :=
  match t.rows.find? (fun r => r.symbol == p.symbol) with
  | some r =>
      let r' := overwritePair r p now
      (⟨t.rows.map fun x => if x.symbol == p.symbol then overwritePair x p now else x,
        t.nextId⟩, r')
  | none =>
      let r' := freshPair t.nextId p now
      (⟨t.rows ++ [r'], t.nextId + 1⟩, r')

/-- `updateCurrencyMargin(symbol, margin)`:
`update currency_pairs set margin = margin.toString(), updated_at = now()
where symbol = symbol` — touches every row whose symbol matches (at most
one under the unique constraint), sets only `margin` and `updatedAt`, and
is a no-op when no row matches.  Returns `void` in the source, so only the
table comes back. -/
def updateCurrencyMargin (t : CurrencyTable) (now : Nat) (symbol : String)
    (margin : ℚ) : CurrencyTable :=
  ⟨t.rows.map fun x =>
      if x.symbol == symbol then { x with margin := margin, updatedAt := now } else x,
    t.nextId⟩

/-- `getNewsArticles(limit = 20)`: rows ordered by `publishedAt` descending,
truncated by the SQL `limit`; a caller that omits the argument gets the
TypeScript default of 20, modelled by `none`. -/
def getNewsArticles (t : NewsTable) (limit : Option Nat) : List NewsArticle :=
  (sortDescBy (fun a => a.publishedAt) t.rows).take (limit.getD 20)

/-- `getNewsArticle(id)`: first row with matching id. -/
def getNewsArticle (t : NewsTable) (id : Nat) : Option NewsArticle :=
  t.rows.find? fun a => a.id == id

/-- `upsertNewsArticle(article)`: a plain insert (no conflict target),
stamping `createdAt = new Date()`. -/
def upsertNewsArticle (t : NewsTable) (now : Nat) (a : InsertNewsArticle) :
    NewsTable × NewsArticle :=
  let r : NewsArticle :=
    { id := t.nextId, title := a.title, summary := a.summary,
      content := a.content, source := a.source, imageUrl := a.imageUrl,
      publishedAt := a.publishedAt, createdAt := now }
  (⟨t.rows ++ [r], t.nextId + 1⟩, r)

/-- `getUserFavorites(userId)`: rows of this user, ordered by `createdAt`
descending. -/
def getUserFavorites (t : FavoritesTable) (userId : String) :
    List UserFavorite :=
  sortDescBy (fun f => f.createdAt) (t.rows.filter fun f => f.userId == userId)

/-- `addUserFavorite(favorite)`: a plain insert (no dedup), stamping
`createdAt = new Date()`. -/
def addUserFavorite (t : FavoritesTable) (now : Nat) (f : InsertUserFavorite) :
    FavoritesTable × UserFavorite :=
  let r : UserFavorite :=
    { id := t.nextId, userId := f.userId, itemType := f.itemType,
      itemId := f.itemId, createdAt := now }
  (⟨t.rows ++ [r], t.nextId + 1⟩, r)

/-- Whether a favorite row matches the full (userId, itemType, itemId)
triple of the `delete ... where` clause. -/
def favMatches (userId itemType itemId : String) (f : UserFavorite) : Bool :=
  f.userId == userId && f.itemType == itemType && f.itemId == itemId

/-- `removeUserFavorite(userId, itemType, itemId)`: deletes every row
matching the triple exactly; deleting zero rows is not an error. -/
def removeUserFavorite (t : FavoritesTable) (userId itemType itemId : String) :
    FavoritesTable :=
  ⟨t.rows.filter fun f => !favMatches userId itemType itemId f, t.nextId⟩

/-- `getMarketIndices()`: all rows ordered by `updatedAt` descending. -/
def getMarketIndices (t : IndicesTable) : List MarketIndex :=
  sortDescBy (fun i => i.updatedAt) t.rows

/-- `getMarketIndex(id)`: first row with matching id. -/
def getMarketIndex (t : IndicesTable) (id : Nat) : Option MarketIndex :=
  t.rows.find? fun i => i.id == id

def overwriteIndex (r : MarketIndex) (i : InsertMarketIndex) (now : Nat) :
    MarketIndex :=
  { id := r.id, name := i.name, symbol := i.symbol, value := i.value,
    change := i.change, changePercent := i.changePercent, updatedAt := now }

def freshIndex (id : Nat) (i : InsertMarketIndex) (now : Nat) : MarketIndex :=
  { id := id, name := i.name, symbol := i.symbol, value := i.value,
    change := i.change, changePercent := i.changePercent, updatedAt := now }

/-- `upsertMarketIndex(index)`: insert with `onConflictDoUpdate` targeting
only the unique `market_indices.symbol` column.  The table also carries a
unique constraint on `name` that the conflict target does NOT cover, so
Postgres raises a unique-violation error when the write would leave two
rows with the same name: on the insert path when some row already has
`i.name`, and on the update path when a row other than the symbol-matched
one has `i.name`. -/
def upsertMarketIndex (t : IndicesTable) (now : Nat) (i : InsertMarketIndex) :
    Except DBErr (IndicesTable × MarketIndex) :=
  match t.rows.find? (fun r => r.symbol == i.symbol) with
  | some r =>
      if t.rows.any (fun o => o.name == i.name && !(o.symbol == i.symbol)) then
        .error .uniqueViolation
      else
        let r' := overwriteIndex r i now
        .ok (⟨t.rows.map fun x => if x.symbol == i.symbol then overwriteIndex x i now else x,
          t.nextId⟩, r')
  | none =>
      if t.rows.any (fun o => o.name == i.name) then
        .error .uniqueViolation
      else
        let r' := freshIndex t.nextId i now
        .ok (⟨t.rows ++ [r'], t.nextId + 1⟩, r')

/-! ### The `PUT /api/currencies/:symbol/margin` handler (`routes.ts`)

The handler runs behind `isAuthenticated`, resolves the caller via
`storage.getUser(req.user.claims.sub)`, requires `role === 'admin'`
(403 otherwise), then validates `typeof margin === 'number' && margin >= 0`
(400 otherwise) before it ever calls `storage.updateCurrencyMargin`. -/

/-- A JSON value as `req.body.margin` can present it after `express.json()`
parsing; JSON cannot encode `NaN` or `Infinity`, so every JavaScript value
whose `typeof` is `'number'` here is a finite decimal. -/
inductive JsonValue where
  | num (q : ℚ)
  | str (s : String)
  | boolean (b : Bool)
  | null
  | missing
  deriving DecidableEq, Repr

structure MarginResponse where
  status : Nat
  table : CurrencyTable
  storeInvoked : Bool
  deriving DecidableEq, Repr

def putMarginHandler (users : UsersTable) (t : CurrencyTable) (now : Nat)
    (sub : String) (symbol : String) (bodyMargin : JsonValue) : MarginResponse :=
  if (getUser users sub).map User.role = some "admin" then
    match bodyMargin with
    | .num q =>
        if q < 0 then ⟨400, t, false⟩
        else ⟨200, updateCurrencyMargin t now symbol q, true⟩
    | _ => ⟨400, t, false⟩
  else ⟨403, t, false⟩

/-! ### The websocket broadcast loop (`wss.on('connection')` in `routes.ts`)

Per connection the source arms `setInterval(sendMarketUpdate, 4000)` and
clears it on `'close'` and on `'error'`.  `sendMarketUpdate` gathers the
four reads with `Promise.all`, then sends one JSON envelope if and only if
`ws.readyState === WebSocket.OPEN`; a rejected read is caught and logged
and nothing is sent.  We model the loop as a step function on a
per-connection state driven by tick / close / error events; the store's
availability for each of the four reads is an input of the tick. -/

structure DB where
  stocks : StocksTable
  currencies : CurrencyTable
  indices : IndicesTable
  news : NewsTable
  deriving DecidableEq, Repr

/-- The assembled snapshot carried by one `market_update` envelope. -/
structure Snapshot where
  stocks : List Stock
  currencies : List CurrencyPair
  indices : List MarketIndex
  news : List NewsArticle
  deriving DecidableEq, Repr

/-- The envelope `ws.send` serializes. -/
structure WsMsg where
  type : String
  data : Snapshot
  timestamp : Nat
  deriving DecidableEq, Repr

/-- Which of the four `Promise.all` reads can reach the store this tick. -/
structure StoreAvail where
  stocksOk : Bool
  currenciesOk : Bool
  indicesOk : Bool
  newsOk : Bool
  deriving DecidableEq, Repr

def StoreAvail.allOk (a : StoreAvail) : Bool :=
  a.stocksOk && a.currenciesOk && a.indicesOk && a.newsOk

/-- `Promise.all` over the four reads: it fulfills with all four lists when
every read succeeds and rejects as soon as any one read fails. -/
def fetchAll (db : DB) (a : StoreAvail) : Except Unit Snapshot :=
  if a.allOk then
    .ok ⟨getStocks db.stocks, getCurrencyPairs db.currencies,
         getMarketIndices db.indices, getNewsArticles db.news (some 10)⟩
  else .error ()

/-- Observable outcome of one `sendMarketUpdate` invocation: the message
pushed (if any) and whether the catch block logged an error. -/
structure TickOut where
  push : Option WsMsg
  loggedError : Bool
  deriving DecidableEq, Repr

/-- `sendMarketUpdate`: assemble via `Promise.all`; on success send the
envelope only when the transport is still OPEN; on failure log and skip. -/
def sendMarketUpdate (db : DB) (a : StoreAvail) (isOpen : Bool) (now : Nat) :
    TickOut :=
  match fetchAll db a with
  | .error _ => ⟨none, true⟩
  | .ok snap => ⟨if isOpen then some ⟨"market_update", snap, now⟩ else none, false⟩

/-- Events a live connection can receive: a firing of its recurring
4-second timer (carrying the store state, store availability, transport
readiness and clock at that moment), a transport `'close'`, or a
transport `'error'`. -/
inductive WsEvent where
  | tick (db : DB) (a : StoreAvail) (isOpen : Bool) (now : Nat)
  | closeEvt
  | errorEvt
  deriving DecidableEq, Repr

/-- Per-connection state: whether `updateInterval` is still armed. -/
structure ConnState where
  timerActive : Bool
  deriving DecidableEq, Repr

/-- On connect the source sends one immediate update and arms the timer. -/
def connInit : ConnState := ⟨true⟩

/-- One event-loop step of a single connection.  A timer firing runs
`sendMarketUpdate` only while the interval is armed; the `'close'` and
`'error'` handlers cancel the interval (`clearInterval`) and push
nothing — cancellation is the whole of teardown, so nothing can run
between the close signal and the cancellation. -/
def connStep (s : ConnState) (e : WsEvent) : ConnState × TickOut :=
  match e with
  | .tick db a isOpen now =>
      if s.timerActive then (s, sendMarketUpdate db a isOpen now)
      else (s, ⟨none, false⟩)
  | .closeEvt => (⟨false⟩, ⟨none, false⟩)
  | .errorEvt => (⟨false⟩, ⟨none, false⟩)

/-- Run a connection through a list of events, collecting the outcomes. -/
def runConn (s : ConnState) : List WsEvent → ConnState × List TickOut
  | [] => (s, [])
  | e :: es =>
      let so := connStep s e
      let rest := runConn so.1 es
      (rest.1, so.2 :: rest.2)

/-- A registry of independent connections, one timer each; delivering an
event to connection `i` steps only connection `i`. -/
def sysStep (sys : Nat → ConnState) (i : Nat) (e : WsEvent) :
    (Nat → ConnState) × TickOut :=
  (fun j => if j = i then (connStep (sys i) e).1 else sys j,
   (connStep (sys i) e).2)

/-! ### Uniqueness invariants enforced by the schema's unique columns -/

/-- No two stock rows share a symbol (`stocks.symbol` is unique). -/
def StocksUnique (t : StocksTable) : Prop :=
  t.rows.Pairwise fun a b => a.symbol ≠ b.symbol

instance (t : StocksTable) : Decidable (StocksUnique t) :=
  List.instDecidablePairwise t.rows

/-- No two market-index rows share a name, and none share a symbol
(`market_indices.name` and `market_indices.symbol` are each unique). -/
def IndicesUnique (t : IndicesTable) : Prop :=
  (t.rows.Pairwise fun a b => a.name ≠ b.name) ∧
  (t.rows.Pairwise fun a b => a.symbol ≠ b.symbol)

instance (t : IndicesTable) : Decidable (IndicesUnique t) :=
  instDecidableAnd

/-- A sequence of stock upserts, each at its own clock value. -/
def applyStockUpserts (t : StocksTable) (ops : List (Nat × InsertStock)) :
    StocksTable :=
  ops.foldl (fun acc op => (upsertStock acc op.1 op.2).1) t

/-- One market-index upsert as `initializeSampleData` experiences it: a
unique-violation rejection is caught upstream and leaves the table as it
was. -/
def applyIndexUpsert (t : IndicesTable) (op : Nat × InsertMarketIndex) :
    IndicesTable :=
  match upsertMarketIndex t op.1 op.2 with
  | .ok r => r.1
  | .error _ => t

def applyIndexUpserts (t : IndicesTable) (ops : List (Nat × InsertMarketIndex)) :
    IndicesTable :=
  ops.foldl applyIndexUpsert t

/-! ### Sample data (`initializeSampleData` in `routes.ts`), currency slice -/

def sampleCurrencies : List InsertCurrencyPair :=
  [⟨"EUR/USD", "EUR", "USD", 1.0842, 0.0013, 0.12, 0.25⟩,
   ⟨"GBP/USD", "GBP", "USD", 1.2156, -0.000973, -0.08, 0.30⟩,
   ⟨"USD/JPY", "USD", "JPY", 149.85, 0.36, 0.24, 0.20⟩,
   ⟨"AUD/USD", "AUD", "USD", 0.6455, -0.000968, -0.15, 0.35⟩]

/-- The currency table right after `initializeSampleData` has upserted the
four sample pairs (seed clock value 1000). -/
def seededCurrencies : CurrencyTable :=
  sampleCurrencies.foldl (fun acc p => (upsertCurrencyPair acc 1000 p).1)
    emptyCurrencies

/-- Concrete favorites used for the C4 counterexample. -/
def fav1 : InsertUserFavorite := ⟨"u1", "stock", "AAPL"⟩

def favTable1 : FavoritesTable := (addUserFavorite emptyFavorites 10 fav1).1

/-- Concrete indices used for the C3 counterexample (first sample row of
`initializeSampleData`, then a record reusing its name under a fresh
symbol). -/
def idxSp500 : InsertMarketIndex := ⟨"S&P 500", "SPX", 4547.38, 54.23, 1.20⟩

def idxNameClash : InsertMarketIndex := ⟨"S&P 500", "SPX2", 4000, 0, 0⟩

def seededIndices1 : IndicesTable := applyIndexUpsert emptyIndices (1000, idxSp500)

/-! ### Concrete data for witnesses -/

def aaplInsert : InsertStock :=
  ⟨"AAPL", "Apple Inc.", 175.43, 3.64, 2.10, "47.2M", some "$2.75T",
   some 28.5, some 199.62, some 124.17⟩

def aapl180 : InsertStock :=
  ⟨"AAPL", "Apple Inc.", 180, 3.64, 2.10, "47.2M", some "$2.75T",
   some 28.5, some 199.62, some 124.17⟩

def stocksSeeded1 : StocksTable := (upsertStock emptyStocks 1000 aaplInsert).1

def idxSp500v2 : InsertMarketIndex := ⟨"S&P 500", "SPX", 4600, 10, 0.20⟩

def favOtherUser : InsertUserFavorite := ⟨"u2", "currency", "EUR/USD"⟩

def favTable2 : FavoritesTable := (addUserFavorite emptyFavorites 5 favOtherUser).1

def adminUser : User :=
  ⟨"a1", some "sarah.admin@company.com", some "Sarah", some "Admin", none,
   "admin", 0, 0⟩

def basicUser : User :=
  ⟨"u1", some "john.trader@company.com", some "John", some "Trader", none,
   "user", 0, 0⟩

def usersTable1 : UsersTable := ⟨[adminUser, basicUser]⟩

def emptyDB : DB := ⟨emptyStocks, emptyCurrencies, emptyIndices, emptyNews⟩

def availAll : StoreAvail := ⟨true, true, true, true⟩

def availNoStocks : StoreAvail := ⟨false, true, true, true⟩

def tickOk : WsEvent := WsEvent.tick emptyDB availAll true 3000

theorem length_insertDescBy (key : α → Nat) (a : α) (l : List α) :
    (insertDescBy key a l).length = l.length + 1 := by
  induction l with
  | nil => rfl
  | cons b l ih =>
    rw [insertDescBy]
    by_cases h : key b ≤ key a
    · simp [h]
    · simp [h, ih]

theorem length_sortDescBy (key : α → Nat) (l : List α) :
    (sortDescBy key l).length = l.length := by
  induction l with
  | nil => rfl
  | cons b l ih =>
    simp [sortDescBy, List.foldr] at *
    rw [length_insertDescBy, ih]

theorem mem_insertDescBy (key : α → Nat) (a x : α) (l : List α) :
    x ∈ insertDescBy key a l ↔ x = a ∨ x ∈ l := by
  induction l with
  | nil => simp [insertDescBy]
  | cons b l ih =>
    rw [insertDescBy]
    by_cases h : key b ≤ key a
    · simp [h]
    · simp [h, ih]
      tauto

theorem pairwise_insertDescBy (key : α → Nat) (a : α) (l : List α)
    (h : l.Pairwise (fun x y => key y ≤ key x)) :
    (insertDescBy key a l).Pairwise (fun x y => key y ≤ key x) := by
  induction l with
  | nil => simp [insertDescBy]
  | cons b l ih =>
    rw [insertDescBy]
    by_cases hba : key b ≤ key a
    · simp only [if_pos hba]
      rcases List.pairwise_cons.mp h with ⟨hb, _⟩
      rw [List.pairwise_cons]
      refine ⟨?_, h⟩
      intro y hy
      rcases List.mem_cons.mp hy with rfl | hy
      · exact hba
      · exact le_trans (hb y hy) hba
    · simp only [if_neg hba]
      rw [List.pairwise_cons] at h ⊢
      refine ⟨?_, ih h.2⟩
      intro y hy
      rcases (mem_insertDescBy key a y l).mp hy with rfl | hy
      · exact le_of_lt (Nat.lt_of_not_le hba)
      · exact h.1 y hy

theorem pairwise_sortDescBy (key : α → Nat) (l : List α) :
    (sortDescBy key l).Pairwise (fun x y => key y ≤ key x) := by
  induction l with
  | nil => simp [sortDescBy]
  | cons b l ih =>
    exact pairwise_insertDescBy key b _ ih

/-! ### Generic list lemmas for conditional row updates -/

theorem find_map_cond_update (p : α → Bool) (f : α → α)
    (hf : ∀ x, p x = true → p (f x) = true) (l : List α) :
    (l.map fun x => if p x then f x else x).find? p = (l.find? p).map f := by
  induction l with
  | nil => rfl
  | cons a l ih =>
    by_cases h : p a = true
    · simp [List.find?, h, hf a h]
    · simp only [Bool.not_eq_true] at h
      simp [List.find?, h, ih]

theorem map_cond_update_eq_self (p : α → Bool) (f : α → α) (l : List α)
    (h : ∀ x ∈ l, p x = false) :
    (l.map fun x => if p x then f x else x) = l := by
  induction l with
  | nil => rfl
  | cons a l ih =>
    have ha := h a (by simp)
    simp only [List.map, ha, Bool.false_eq_true, if_false]
    rw [ih fun x hx => h x (by simp [hx])]

theorem find_append_right (p : α → Bool) (l : List α) (a : α)
    (h : ∀ x ∈ l, p x = false) (ha : p a = true) :
    (l ++ [a]).find? p = some a := by
  induction l with
  | nil => simp [List.find?, ha]
  | cons b l ih =>
    have hb := h b (by simp)
    simp only [List.cons_append, List.find?, hb]
    exact ih fun x hx => h x (by simp [hx])

/-! ### Claim theorems -/

/-- C9: after `initializeSampleData` seeds the currency pairs (EUR/USD
with margin 0.25), `updateCurrencyMargin("EUR/USD", 0.50)` makes a
subsequent `getCurrencyPairBySymbol("EUR/USD")` return a row whose
`margin`, printed the way the `numeric(5,2)` column hands it back, is the
string "0.50", with `rate` unchanged (still 1.0842). -/
theorem updateMargin_eurusd_scenario :
    ∃ p0 p : CurrencyPair,
      getCurrencyPairBySymbol seededCurrencies "EUR/USD" = some p0 ∧
      p0.margin = (0.25 : ℚ) ∧
      getCurrencyPairBySymbol
        (updateCurrencyMargin seededCurrencies 2000 "EUR/USD" (1/2))
        "EUR/USD" = some p ∧
      pgDec2 p.margin = "0.50" ∧
      p.rate = p0.rate ∧ p0.rate = (1.0842 : ℚ) := by
  refine ⟨⟨1, "EUR/USD", "EUR", "USD", 1.0842, 0.0013, 0.12, 0.25, 1000⟩,
          ⟨1, "EUR/USD", "EUR", "USD", 1.0842, 0.0013, 0.12, 1/2, 2000⟩,
          ?_, ?_, ?_, ?_, ?_, ?_⟩ <;> decide!

/-- C2: `updateCurrencyMargin(s, m)` on an existing symbol sets that row's
`margin` to `m` and `updatedAt` to the current time while leaving `rate`,
`change`, `changePercent` and every other field (`id`, `symbol`, `base`,
`quote`) unchanged; on an absent symbol it is a no-op that raises no error
and changes no row. -/
theorem updateCurrencyMargin_frame (t : CurrencyTable) (now : Nat)
    (s : String) (m : ℚ) :
    ((∃ q ∈ t.rows, q.symbol = s) →
       ∃ p p', getCurrencyPairBySymbol t s = some p ∧
         getCurrencyPairBySymbol (updateCurrencyMargin t now s m) s = some p' ∧
         p'.margin = m ∧ p'.updatedAt = now ∧
         p'.rate = p.rate ∧ p'.change = p.change ∧
         p'.changePercent = p.changePercent ∧
         p'.id = p.id ∧ p'.symbol = p.symbol ∧
         p'.base = p.base ∧ p'.quote = p.quote) ∧
    ((∀ q ∈ t.rows, q.symbol ≠ s) → updateCurrencyMargin t now s m = t) := by
  constructor
  · rintro ⟨q, hq, hsym⟩
    have hsome : (t.rows.find? fun r => r.symbol == s).isSome :=
      List.find?_isSome.mpr ⟨q, hq, beq_iff_eq.mpr hsym⟩
    obtain ⟨p, hp⟩ := Option.isSome_iff_exists.mp hsome
    refine ⟨p, { p with margin := m, updatedAt := now }, hp, ?_, rfl, rfl,
            rfl, rfl, rfl, rfl, rfl, rfl, rfl⟩
    show (t.rows.map fun x =>
        if x.symbol == s then { x with margin := m, updatedAt := now } else x).find?
          (fun r => r.symbol == s) = _
    rw [find_map_cond_update (fun r => r.symbol == s)
          (fun x => { x with margin := m, updatedAt := now }) (fun x hx => hx) t.rows,
        hp]
    rfl
  · intro h
    show (⟨_, _⟩ : CurrencyTable) = t
    rw [map_cond_update_eq_self]
    · intro x hx
      exact beq_eq_false_iff_ne.mpr (h x hx)

/-- The conditional overwrite inside `upsertStock` never changes a row's
symbol: the overwritten row takes the insert's symbol, which is the very
symbol it matched on. -/
theorem upsertStock_row_symbol (s : InsertStock) (now : Nat) (x : Stock) :
    (if x.symbol == s.symbol then overwriteStock x s now else x).symbol
      = x.symbol := by
  by_cases h : (x.symbol == s.symbol) = true
  · simp only [h, if_true]
    exact (beq_iff_eq.mp h).symm
  · simp only [Bool.not_eq_true] at h
    simp [h]

/-- `upsertStock` preserves symbol uniqueness. -/
theorem upsertStock_preserves_unique (t : StocksTable) (now : Nat)
    (s : InsertStock) (h : StocksUnique t) :
    StocksUnique (upsertStock t now s).1 := by
  unfold StocksUnique upsertStock
  cases hf : t.rows.find? (fun r => r.symbol == s.symbol) with
  | some r =>
    simp only
    rw [List.pairwise_map]
    exact h.imp fun hab => by
      rwa [upsertStock_row_symbol, upsertStock_row_symbol]
  | none =>
    simp only
    rw [List.pairwise_append]
    refine ⟨h, by simp, ?_⟩
    intro a ha b hb
    simp only [List.mem_singleton] at hb
    subst hb
    have := List.find?_eq_none.mp hf a ha
    simp only [beq_eq_false_iff_ne] at this
    rw [Bool.not_eq_true, beq_eq_false_iff_ne] at this
    exact this

/-- Any sequence of stock upserts preserves symbol uniqueness. -/
theorem applyStockUpserts_unique (t : StocksTable)
    (ops : List (Nat × InsertStock)) (h : StocksUnique t) :
    StocksUnique (applyStockUpserts t ops) := by
  induction ops generalizing t with
  | nil => exact h
  | cons op ops ih =>
    exact ih _ (upsertStock_preserves_unique t op.1 op.2 h)

/-- C1: `upsertStock` preserves symbol uniqueness.  When a row with the
insert's symbol exists, `getStocks()` keeps its row count and the matched
row is replaced field-for-field (last-writer-wins) with `updatedAt`
refreshed to the call time; when none exists the count grows by exactly
one and the new row's `updatedAt` is the call time, hence at least the
time `t0` just before the call.  Uniqueness is preserved by each upsert
and holds after any sequence of upserts from an empty table. -/
theorem upsertStock_symbol_uniqueness (t : StocksTable) (now t0 : Nat)
    (s : InsertStock) (ht : t0 ≤ now) :
    ((∃ q ∈ t.rows, q.symbol = s.symbol) →
       (getStocks (upsertStock t now s).1).length = (getStocks t).length ∧
       ∃ p, getStockBySymbol t s.symbol = some p ∧
         getStockBySymbol (upsertStock t now s).1 s.symbol
           = some (overwriteStock p s now) ∧
         (overwriteStock p s now).id = p.id ∧
         (overwriteStock p s now).symbol = s.symbol ∧
         (overwriteStock p s now).company = s.company ∧
         (overwriteStock p s now).price = s.price ∧
         (overwriteStock p s now).change = s.change ∧
         (overwriteStock p s now).changePercent = s.changePercent ∧
         (overwriteStock p s now).volume = s.volume ∧
         (overwriteStock p s now).marketCap = s.marketCap ∧
         (overwriteStock p s now).updatedAt = now) ∧
    ((∀ q ∈ t.rows, q.symbol ≠ s.symbol) →
       (getStocks (upsertStock t now s).1).length = (getStocks t).length + 1 ∧
       ∃ p, getStockBySymbol (upsertStock t now s).1 s.symbol = some p ∧
         p.updatedAt = now ∧ t0 ≤ p.updatedAt) ∧
    (StocksUnique t → StocksUnique (upsertStock t now s).1) ∧
    (∀ ops : List (Nat × InsertStock),
       StocksUnique (applyStockUpserts emptyStocks ops)) := by
  refine ⟨?_, ?_, upsertStock_preserves_unique t now s, ?_⟩
  · rintro ⟨q, hq, hsym⟩
    have hsome : (t.rows.find? fun r => r.symbol == s.symbol).isSome :=
      List.find?_isSome.mpr ⟨q, hq, beq_iff_eq.mpr hsym⟩
    obtain ⟨p, hp⟩ := Option.isSome_iff_exists.mp hsome
    constructor
    · unfold upsertStock
      rw [hp]
      simp only [getStocks, length_sortDescBy, List.length_map]
    · refine ⟨p, hp, ?_, rfl, rfl, rfl, rfl, rfl, rfl, rfl, rfl, rfl⟩
      unfold upsertStock
      rw [hp]
      show (t.rows.map fun x =>
          if x.symbol == s.symbol then overwriteStock x s now else x).find?
            (fun r => r.symbol == s.symbol) = _
      rw [find_map_cond_update (fun r => r.symbol == s.symbol)
            (fun x => overwriteStock x s now)
            (fun x _ => beq_self_eq_true s.symbol) t.rows, hp]
      rfl
  · intro h
    have hnone : t.rows.find? (fun r => r.symbol == s.symbol) = none :=
      List.find?_eq_none.mpr fun x hx => by
        simp only [Bool.not_eq_true, beq_eq_false_iff_ne]
        exact h x hx
    constructor
    · unfold upsertStock
      rw [hnone]
      simp only [getStocks, length_sortDescBy, List.length_append,
        List.length_singleton]
    · refine ⟨freshStock t.nextId s now, ?_, rfl, ht⟩
      unfold upsertStock
      rw [hnone]
      show (t.rows ++ [freshStock t.nextId s now]).find?
          (fun r => r.symbol == s.symbol) = _
      exact find_append_right _ t.rows _
        (fun x hx => beq_eq_false_iff_ne.mpr (h x hx))
        (beq_self_eq_true s.symbol)
  · intro ops
    exact applyStockUpserts_unique emptyStocks ops (List.Pairwise.nil)

/-- C5: `getNewsArticles` with limit N returns at most N rows, the rows
come back sorted by `publishedAt` descending, and omitting the limit
queries with the default limit 20. -/
theorem getNewsArticles_limit_sorted (t : NewsTable) (n : Nat) :
    (getNewsArticles t (some n)).length ≤ n ∧
    (∀ limit, (getNewsArticles t limit).Pairwise
        fun a b => b.publishedAt ≤ a.publishedAt) ∧
    getNewsArticles t none = getNewsArticles t (some 20) := by
  refine ⟨?_, ?_, rfl⟩
  · unfold getNewsArticles
    rw [List.length_take, length_sortDescBy]
    exact Nat.min_le_left _ _
  · intro limit
    unfold getNewsArticles
    exact List.Pairwise.sublist (List.take_sublist _ _)
      (pairwise_sortDescBy (fun a => a.publishedAt) t.rows)

/-- A favorite row matches the delete triple iff its three key fields
equal the triple. -/
theorem favMatches_iff (u ty it : String) (f : UserFavorite) :
    favMatches u ty it f = true ↔
      f.userId = u ∧ f.itemType = ty ∧ f.itemId = it := by
  simp [favMatches, Bool.and_eq_true, beq_iff_eq, and_assoc]

/-- C4 counterexample: when a row with the same (userId, itemType, itemId)
triple already exists before the add, `addUserFavorite` followed by
`removeUserFavorite` does NOT leave `getUserFavorites` as it was: the
remove deletes every matching row, the pre-existing one included. -/
theorem favorites_roundtrip_cex :
    getUserFavorites favTable1 "u1" ≠ [] ∧
    getUserFavorites
      (removeUserFavorite (addUserFavorite favTable1 20 fav1).1
        "u1" "stock" "AAPL") "u1" = [] := by
  decide

/-- C4 (amended): provided no row matching the (userId, itemType, itemId)
triple exists beforehand, an add (or a double add) followed by a remove of
the triple restores `getUserFavorites(u)` exactly, and a remove with no
matching rows is an error-free no-op on the whole table. -/
theorem favorites_roundtrip (t : FavoritesTable) (now now2 : Nat)
    (u ty it : String)
    (h : ∀ f ∈ t.rows, ¬(f.userId = u ∧ f.itemType = ty ∧ f.itemId = it)) :
    getUserFavorites
        (removeUserFavorite (addUserFavorite t now ⟨u, ty, it⟩).1 u ty it) u
      = getUserFavorites t u ∧
    getUserFavorites
        (removeUserFavorite
          (addUserFavorite (addUserFavorite t now ⟨u, ty, it⟩).1 now2
            ⟨u, ty, it⟩).1 u ty it) u
      = getUserFavorites t u ∧
    removeUserFavorite t u ty it = t := by
  have hkeep : ∀ f ∈ t.rows, (!favMatches u ty it f) = true := by
    intro f hf
    rw [Bool.not_eq_true']
    rw [← Bool.not_eq_true, favMatches_iff]
    exact h f hf
  have hfilter : t.rows.filter (fun f => !favMatches u ty it f) = t.rows :=
    List.filter_eq_self.mpr hkeep
  have hnew : ∀ id now', (!favMatches u ty it ⟨id, u, ty, it, now'⟩) = false := by
    intro id now'
    rw [Bool.not_eq_false', favMatches_iff]
    exact ⟨rfl, rfl, rfl⟩
  have hrow1 : (removeUserFavorite (addUserFavorite t now ⟨u, ty, it⟩).1
      u ty it).rows = t.rows := by
    simp only [addUserFavorite, removeUserFavorite, List.filter_append,
      hfilter, List.filter_cons, List.filter_nil, hnew, Bool.false_eq_true,
      if_false, List.append_nil]
  have hrow2 : (removeUserFavorite
      (addUserFavorite (addUserFavorite t now ⟨u, ty, it⟩).1 now2
        ⟨u, ty, it⟩).1 u ty it).rows = t.rows := by
    simp only [addUserFavorite, removeUserFavorite, List.filter_append,
      hfilter, List.filter_cons, List.filter_nil, hnew, Bool.false_eq_true,
      if_false, List.append_nil]
  refine ⟨?_, ?_, ?_⟩
  · unfold getUserFavorites
    rw [hrow1]
  · unfold getUserFavorites
    rw [hrow2]
  · show (⟨t.rows.filter fun f => !favMatches u ty it f, t.nextId⟩
        : FavoritesTable) = t
    rw [hfilter]

/-- The conditional overwrite inside `upsertMarketIndex` never changes a
row's symbol. -/
theorem upsertIndex_row_symbol (i : InsertMarketIndex) (now : Nat)
    (x : MarketIndex) :
    (if x.symbol == i.symbol then overwriteIndex x i now else x).symbol
      = x.symbol := by
  by_cases h : (x.symbol == i.symbol) = true
  · simp only [h, if_true]
    exact (beq_iff_eq.mp h).symm
  · simp only [Bool.not_eq_true] at h
    simp [h]

/-- One (caught) `upsertMarketIndex` preserves both uniqueness
invariants. -/
theorem applyIndexUpsert_preserves_unique (t : IndicesTable)
    (op : Nat × InsertMarketIndex) (h : IndicesUnique t) :
    IndicesUnique (applyIndexUpsert t op) := by
  obtain ⟨hname, hsym⟩ := h
  unfold applyIndexUpsert upsertMarketIndex
  cases hf : t.rows.find? (fun r => r.symbol == op.2.symbol) with
  | some r =>
    by_cases hc : t.rows.any
        (fun o => o.name == op.2.name && !(o.symbol == op.2.symbol)) = true
    · simp only [hc, if_true]
      exact ⟨hname, hsym⟩
    · rw [Bool.not_eq_true] at hc
      simp only [hc, Bool.false_eq_true, if_false]
      have hcheck : ∀ o ∈ t.rows, o.name = op.2.name → o.symbol = op.2.symbol := by
        intro o ho heq
        have h2 := (List.any_eq_false.mp hc) o ho
        rw [Bool.and_eq_true, not_and] at h2
        by_contra hne
        exact h2 (beq_iff_eq.mpr heq)
          (by rw [Bool.not_eq_true']; exact beq_eq_false_iff_ne.mpr hne)
      constructor
      · rw [List.pairwise_map]
        refine List.Pairwise.imp_of_mem ?_ (hname.and hsym)
        intro a b ha hb hab
        obtain ⟨hnab, hsab⟩ := hab
        by_cases hA : (a.symbol == op.2.symbol) = true
        · by_cases hB : (b.symbol == op.2.symbol) = true
          · exact absurd (beq_iff_eq.mp hA ▸ (beq_iff_eq.mp hB).symm) hsab
          · rw [Bool.not_eq_true] at hB
            simp only [hA, if_true, hB, Bool.false_eq_true, if_false]
            intro heq
            have hbn : b.name = op.2.name := heq.symm
            have hbeq : (b.symbol == op.2.symbol) = true :=
              beq_iff_eq.mpr (hcheck b hb hbn)
            rw [hB] at hbeq
            exact Bool.false_ne_true hbeq
        · rw [Bool.not_eq_true] at hA
          by_cases hB : (b.symbol == op.2.symbol) = true
          · simp only [hA, Bool.false_eq_true, if_false, hB, if_true]
            intro heq
            have han : a.name = op.2.name := heq
            have haeq : (a.symbol == op.2.symbol) = true :=
              beq_iff_eq.mpr (hcheck a ha han)
            rw [hA] at haeq
            exact Bool.false_ne_true haeq
          · rw [Bool.not_eq_true] at hB
            simpa only [hA, hB, Bool.false_eq_true, if_false] using hnab
      · rw [List.pairwise_map]
        exact hsym.imp fun hab => by
          rwa [upsertIndex_row_symbol, upsertIndex_row_symbol]
  | none =>
    by_cases hc : t.rows.any (fun o => o.name == op.2.name) = true
    · simp only [hc, if_true]
      exact ⟨hname, hsym⟩
    · rw [Bool.not_eq_true] at hc
      simp only [hc, Bool.false_eq_true, if_false]
      have hnames : ∀ o ∈ t.rows, o.name ≠ op.2.name := by
        intro o ho
        have := (List.any_eq_false.mp hc) o ho
        simpa [beq_iff_eq] using this
      have hsyms : ∀ o ∈ t.rows, o.symbol ≠ op.2.symbol := by
        intro o ho
        have := List.find?_eq_none.mp hf o ho
        simpa [beq_iff_eq] using this
      constructor
      · rw [List.pairwise_append]
        refine ⟨hname, by simp, ?_⟩
        intro a ha b hb
        simp only [List.mem_singleton] at hb
        subst hb
        exact hnames a ha
      · rw [List.pairwise_append]
        refine ⟨hsym, by simp, ?_⟩
        intro a ha b hb
        simp only [List.mem_singleton] at hb
        subst hb
        exact hsyms a ha

/-- Any sequence of (caught) index upserts preserves both uniqueness
invariants. -/
theorem applyIndexUpserts_unique (t : IndicesTable)
    (ops : List (Nat × InsertMarketIndex)) (h : IndicesUnique t) :
    IndicesUnique (applyIndexUpserts t ops) := by
  induction ops generalizing t with
  | nil => exact h
  | cons op ops ih =>
    exact ih _ (applyIndexUpsert_preserves_unique t op h)

/-- C3 counterexample: `market_indices.name` is a unique natural key just
like `symbol`, yet `upsertMarketIndex`'s conflict target is `symbol`
alone.  Upserting a record whose `name` matches an existing row but whose
`symbol` is fresh does not replace that row as the claim states: the
insert is rejected with a unique violation, so nothing is replaced or
inserted. -/
theorem upsertMarketIndex_name_conflict_cex :
    (∃ q ∈ seededIndices1.rows, q.name = idxNameClash.name) ∧
    (∀ q ∈ seededIndices1.rows, q.symbol ≠ idxNameClash.symbol) ∧
    upsertMarketIndex seededIndices1 2000 idxNameClash
      = Except.error DBErr.uniqueViolation := by
  decide!

/-- C3 (amended): `upsertMarketIndex` is keyed on `symbol` alone.  When a
row with the insert's symbol exists and the insert's name collides with no
other row, that row is replaced field-for-field with `updatedAt` refreshed
and the row count unchanged; when neither symbol nor name is present, a
fresh row is inserted and the count grows by one; when the symbol is fresh
but the name belongs to an existing row, the write errors with a unique
violation instead of replacing the name-matched row.  Every (caught)
upsert preserves both uniqueness invariants, so after any sequence of
upserts from empty the store never holds two rows with the same name or
two with the same symbol. -/
theorem upsertMarketIndex_symbol_keyed (t : IndicesTable) (now : Nat)
    (i : InsertMarketIndex) :
    ((∃ q ∈ t.rows, q.symbol = i.symbol) →
     (∀ o ∈ t.rows, o.name = i.name → o.symbol = i.symbol) →
     ∃ p t', t.rows.find? (fun r => r.symbol == i.symbol) = some p ∧
       upsertMarketIndex t now i = Except.ok (t', overwriteIndex p i now) ∧
       t'.rows.length = t.rows.length ∧
       (overwriteIndex p i now).id = p.id ∧
       (overwriteIndex p i now).name = i.name ∧
       (overwriteIndex p i now).symbol = i.symbol ∧
       (overwriteIndex p i now).value = i.value ∧
       (overwriteIndex p i now).change = i.change ∧
       (overwriteIndex p i now).changePercent = i.changePercent ∧
       (overwriteIndex p i now).updatedAt = now) ∧
    ((∀ q ∈ t.rows, q.symbol ≠ i.symbol) → (∀ q ∈ t.rows, q.name ≠ i.name) →
     ∃ t', upsertMarketIndex t now i
         = Except.ok (t', freshIndex t.nextId i now) ∧
       t'.rows.length = t.rows.length + 1) ∧
    ((∀ q ∈ t.rows, q.symbol ≠ i.symbol) → (∃ q ∈ t.rows, q.name = i.name) →
     upsertMarketIndex t now i = Except.error DBErr.uniqueViolation) ∧
    (IndicesUnique t → IndicesUnique (applyIndexUpsert t (now, i))) ∧
    (∀ ops, IndicesUnique (applyIndexUpserts emptyIndices ops)) := by
  refine ⟨?_, ?_, ?_, fun h => applyIndexUpsert_preserves_unique t (now, i) h,
    fun ops => applyIndexUpserts_unique emptyIndices ops
      ⟨List.Pairwise.nil, List.Pairwise.nil⟩⟩
  · rintro ⟨q, hq, hsym⟩ hnoclash
    have hsome : (t.rows.find? fun r => r.symbol == i.symbol).isSome :=
      List.find?_isSome.mpr ⟨q, hq, beq_iff_eq.mpr hsym⟩
    obtain ⟨p, hp⟩ := Option.isSome_iff_exists.mp hsome
    have hany : t.rows.any
        (fun o => o.name == i.name && !(o.symbol == i.symbol)) = false := by
      rw [List.any_eq_false]
      intro o ho
      rw [Bool.and_eq_true, not_and]
      intro hon
      rw [Bool.not_eq_true', Bool.not_eq_false]
      exact beq_iff_eq.mpr (hnoclash o ho (beq_iff_eq.mp hon))
    refine ⟨p, ⟨t.rows.map fun x =>
        if x.symbol == i.symbol then overwriteIndex x i now else x, t.nextId⟩,
      hp, ?_, ?_, rfl, rfl, rfl, rfl, rfl, rfl, rfl⟩
    · unfold upsertMarketIndex
      rw [hp, hany]
      simp only [Bool.false_eq_true, if_false]
    · simp only [List.length_map]
  · intro hsyms hnames
    have hnone : t.rows.find? (fun r => r.symbol == i.symbol) = none :=
      List.find?_eq_none.mpr fun x hx => by
        simp only [Bool.not_eq_true, beq_eq_false_iff_ne]
        exact hsyms x hx
    have hany : t.rows.any (fun o => o.name == i.name) = false := by
      rw [List.any_eq_false]
      intro o ho
      simp only [Bool.not_eq_true, beq_eq_false_iff_ne]
      exact hnames o ho
    refine ⟨⟨t.rows ++ [freshIndex t.nextId i now], t.nextId + 1⟩, ?_, ?_⟩
    · unfold upsertMarketIndex
      rw [hnone, hany]
      simp only [Bool.false_eq_true, if_false]
    · simp only [List.length_append, List.length_singleton]
  · rintro hsyms ⟨q, hq, hname⟩
    have hnone : t.rows.find? (fun r => r.symbol == i.symbol) = none :=
      List.find?_eq_none.mpr fun x hx => by
        simp only [Bool.not_eq_true, beq_eq_false_iff_ne]
        exact hsyms x hx
    have hany : t.rows.any (fun o => o.name == i.name) = true :=
      List.any_eq_true.mpr ⟨q, hq, beq_iff_eq.mpr hname⟩
    unfold upsertMarketIndex
    rw [hnone, hany]
    simp only [if_true]

/-- C6: the `PUT /currencies/{symbol}/margin` handler checks in order:
a caller whose resolved role is not `admin` gets 403; an admin caller whose
body margin is missing or non-numeric, or a negative number, gets 400 with
the store never invoked; an admin caller with a non-negative numeric
margin gets 200 (and the store is invoked with that margin). -/
theorem putMarginHandler_statuses (users : UsersTable) (t : CurrencyTable)
    (now : Nat) (sub symbol : String) (body : JsonValue) :
    ((getUser users sub).map User.role ≠ some "admin" →
        putMarginHandler users t now sub symbol body = ⟨403, t, false⟩) ∧
    ((getUser users sub).map User.role = some "admin" →
      (∀ q : ℚ, body = JsonValue.num q → q < 0 →
          putMarginHandler users t now sub symbol body = ⟨400, t, false⟩) ∧
      ((∀ q : ℚ, body ≠ JsonValue.num q) →
          putMarginHandler users t now sub symbol body = ⟨400, t, false⟩) ∧
      (∀ q : ℚ, body = JsonValue.num q → 0 ≤ q →
          putMarginHandler users t now sub symbol body
            = ⟨200, updateCurrencyMargin t now symbol q, true⟩)) := by
  constructor
  · intro hne
    unfold putMarginHandler
    rw [if_neg hne]
  · intro hrole
    refine ⟨?_, ?_, ?_⟩
    · rintro q rfl hneg
      unfold putMarginHandler
      rw [if_pos hrole]
      simp only [if_pos hneg]
    · intro hnotnum
      unfold putMarginHandler
      rw [if_pos hrole]
      cases body with
      | num q => exact absurd rfl (hnotnum q)
      | str s => rfl
      | boolean b => rfl
      | null => rfl
      | missing => rfl
    · rintro q rfl hq
      unfold putMarginHandler
      rw [if_pos hrole]
      simp only [if_neg (not_lt.mpr hq)]

/-- No event re-arms a cancelled interval. -/
theorem connStep_timer_mono (s : ConnState) (e : WsEvent)
    (h : s.timerActive = false) : (connStep s e).1.timerActive = false := by
  cases e with
  | tick db a isOpen now => simp [connStep, h]
  | closeEvt => rfl
  | errorEvt => rfl

/-- A connection whose interval is cancelled pushes nothing on any
event. -/
theorem connStep_inactive_no_push (s : ConnState) (e : WsEvent)
    (h : s.timerActive = false) : (connStep s e).2.push = none := by
  cases e with
  | tick db a isOpen now => simp [connStep, h]
  | closeEvt => rfl
  | errorEvt => rfl

/-- Once the interval is cancelled it stays cancelled and no event in any
subsequent run produces a push. -/
theorem runConn_inactive (s : ConnState) (es : List WsEvent)
    (h : s.timerActive = false) :
    (runConn s es).1.timerActive = false ∧
    ∀ o ∈ (runConn s es).2, o.push = none := by
  induction es generalizing s with
  | nil => exact ⟨h, by simp [runConn]⟩
  | cons e es ih =>
    simp only [runConn]
    have h1 := connStep_timer_mono s e h
    obtain ⟨ih1, ih2⟩ := ih (connStep s e).1 h1
    refine ⟨ih1, ?_⟩
    intro o ho
    rcases List.mem_cons.mp ho with rfl | ho
    · exact connStep_inactive_no_push s e h
    · exact ih2 o ho

/-- After processing any event list that ends with a close or error
signal, the connection's interval is cancelled. -/
theorem runConn_final_after_close (s : ConnState) (pre : List WsEvent)
    (c : WsEvent) (hc : c = WsEvent.closeEvt ∨ c = WsEvent.errorEvt) :
    (runConn s (pre ++ [c])).1.timerActive = false := by
  induction pre generalizing s with
  | nil =>
    rcases hc with rfl | rfl
    · rfl
    · rfl
  | cons e es ih =>
    simp only [List.cons_append, runConn]
    exact ih (connStep s e).1

/-- C7: a transport close or error cancels the connection's recurring
interval immediately — cancellation is the entire effect of the handler,
so it happens before any other teardown step and the handler itself pushes
nothing — after which no later event, however many timer firings arrive,
ever produces a snapshot push again; and stepping one connection of a
registry never changes any other connection's state. -/
theorem connClose_no_further_pushes (s : ConnState) (pre post : List WsEvent)
    (c : WsEvent) (hc : c = WsEvent.closeEvt ∨ c = WsEvent.errorEvt) :
    (connStep s c).1.timerActive = false ∧
    (connStep s c).2.push = none ∧
    (∀ o ∈ (runConn ((runConn s (pre ++ [c])).1) post).2, o.push = none) ∧
    (∀ (sys : Nat → ConnState) (i j : Nat) (e : WsEvent), j ≠ i →
        (sysStep sys i e).1 j = sys j) := by
  refine ⟨?_, ?_, ?_, ?_⟩
  · rcases hc with rfl | rfl
    · rfl
    · rfl
  · rcases hc with rfl | rfl
    · rfl
    · rfl
  · exact (runConn_inactive _ post (runConn_final_after_close s pre c hc)).2
  · intro sys i j e hne
    simp [sysStep, hne]

/-- C8: a tick whose snapshot assembly fails (some read cannot reach the
store) logs the error and pushes nothing, leaves the connection state
untouched with the interval still armed, a later successful tick on an
open transport still pushes a full snapshot, and the only events that
disarm the interval are the transport close and error signals. -/
theorem tick_failure_skips_and_keeps_timer (s : ConnState) (db : DB)
    (a : StoreAvail) (isOpen : Bool) (now : Nat)
    (hs : s.timerActive = true) (ha : a.allOk = false) :
    (connStep s (WsEvent.tick db a isOpen now)).2.push = none ∧
    (connStep s (WsEvent.tick db a isOpen now)).2.loggedError = true ∧
    (connStep s (WsEvent.tick db a isOpen now)).1 = s ∧
    (connStep s (WsEvent.tick db a isOpen now)).1.timerActive = true ∧
    (∀ db2 a2 now2, a2.allOk = true →
        (connStep (connStep s (WsEvent.tick db a isOpen now)).1
            (WsEvent.tick db2 a2 true now2)).2.push
          = some ⟨"market_update",
              ⟨getStocks db2.stocks, getCurrencyPairs db2.currencies,
               getMarketIndices db2.indices, getNewsArticles db2.news (some 10)⟩,
              now2⟩) ∧
    (∀ e, (connStep s e).1.timerActive = false →
        e = WsEvent.closeEvt ∨ e = WsEvent.errorEvt) := by
  have hstep : connStep s (WsEvent.tick db a isOpen now)
      = (s, ⟨none, true⟩) := by
    simp [connStep, hs, sendMarketUpdate, fetchAll, ha]
  refine ⟨by rw [hstep], by rw [hstep], by rw [hstep], by rw [hstep]; exact hs,
    ?_, ?_⟩
  · intro db2 a2 now2 ha2
    rw [hstep]
    simp [connStep, hs, sendMarketUpdate, fetchAll, ha2]
  · intro e he
    cases e with
    | tick db3 a3 isOpen3 now3 =>
      exfalso
      by_cases h3 : s.timerActive = true
      · rw [show (connStep s (WsEvent.tick db3 a3 isOpen3 now3)).1 = s by
            simp [connStep, h3]] at he
        rw [he] at hs
        exact Bool.false_ne_true hs
      · rw [Bool.not_eq_true] at h3
        rw [h3] at hs
        exact Bool.false_ne_true hs
    | closeEvt => exact Or.inl rfl
    | errorEvt => exact Or.inr rfl

/-- C10: one invocation of `sendMarketUpdate` is all-or-nothing.  When all
four `Promise.all` reads succeed and the transport is OPEN, exactly the
one full envelope — the complete stock, currency and index lists, the 10
most recent news articles and a capture timestamp — is pushed; when any
one of the four reads fails, or the transport is no longer OPEN, nothing
is pushed; and any message that is pushed carries all four lists and the
timestamp, never a partial snapshot. -/
theorem sendMarketUpdate_all_or_nothing (db : DB) (a : StoreAvail)
    (isOpen : Bool) (now : Nat) :
    (a.allOk = true → isOpen = true →
        (sendMarketUpdate db a isOpen now).push
          = some ⟨"market_update",
              ⟨getStocks db.stocks, getCurrencyPairs db.currencies,
               getMarketIndices db.indices, getNewsArticles db.news (some 10)⟩,
              now⟩) ∧
    (a.allOk = false → (sendMarketUpdate db a isOpen now).push = none) ∧
    (isOpen = false → (sendMarketUpdate db a isOpen now).push = none) ∧
    (∀ m, (sendMarketUpdate db a isOpen now).push = some m →
        m.type = "market_update" ∧
        m.data.stocks = getStocks db.stocks ∧
        m.data.currencies = getCurrencyPairs db.currencies ∧
        m.data.indices = getMarketIndices db.indices ∧
        m.data.news = getNewsArticles db.news (some 10) ∧
        m.timestamp = now) := by
  refine ⟨?_, ?_, ?_, ?_⟩
  · intro ha hopen
    subst hopen
    simp [sendMarketUpdate, fetchAll, ha]
  · intro ha
    simp [sendMarketUpdate, fetchAll, ha]
  · intro hopen
    subst hopen
    by_cases ha : a.allOk = true
    · simp [sendMarketUpdate, fetchAll, ha]
    · rw [Bool.not_eq_true] at ha
      simp [sendMarketUpdate, fetchAll, ha]
  · intro m hm
    by_cases ha : a.allOk = true
    · by_cases hopen : isOpen = true
      · subst hopen
        simp only [sendMarketUpdate, fetchAll, ha, if_true] at hm
        obtain rfl := Option.some_injective _ hm
        exact ⟨rfl, rfl, rfl, rfl, rfl, rfl⟩
      · rw [Bool.not_eq_true] at hopen
        subst hopen
        simp [sendMarketUpdate, fetchAll, ha] at hm
    · rw [Bool.not_eq_true] at ha
      simp [sendMarketUpdate, fetchAll, ha] at hm

/-! ### Witnesses -/

/-- Witness for C1: re-upserting AAPL at price 180 over the seeded table
keeps the count and replaces the row, and uniqueness is preserved. -/
theorem upsertStock_symbol_uniqueness_witness :
    ((getStocks (upsertStock stocksSeeded1 2000 aapl180).1).length
        = (getStocks stocksSeeded1).length ∧
      ∃ p, getStockBySymbol stocksSeeded1 aapl180.symbol = some p ∧
        getStockBySymbol (upsertStock stocksSeeded1 2000 aapl180).1
            aapl180.symbol = some (overwriteStock p aapl180 2000) ∧
        (overwriteStock p aapl180 2000).id = p.id ∧
        (overwriteStock p aapl180 2000).symbol = aapl180.symbol ∧
        (overwriteStock p aapl180 2000).company = aapl180.company ∧
        (overwriteStock p aapl180 2000).price = aapl180.price ∧
        (overwriteStock p aapl180 2000).change = aapl180.change ∧
        (overwriteStock p aapl180 2000).changePercent = aapl180.changePercent ∧
        (overwriteStock p aapl180 2000).volume = aapl180.volume ∧
        (overwriteStock p aapl180 2000).marketCap = aapl180.marketCap ∧
        (overwriteStock p aapl180 2000).updatedAt = 2000) ∧
    StocksUnique (upsertStock stocksSeeded1 2000 aapl180).1 :=
  ⟨(upsertStock_symbol_uniqueness stocksSeeded1 2000 1500 aapl180
      (by decide)).1 (by decide!),
   (upsertStock_symbol_uniqueness stocksSeeded1 2000 1500 aapl180
      (by decide)).2.2.1 (by decide!)⟩

/-- Witness for C2: EUR/USD exists in the seeded table, so the margin
update rewrites only margin and timestamp; on the empty table the same
call is a no-op. -/
theorem updateCurrencyMargin_frame_witness :
    (∃ p p', getCurrencyPairBySymbol seededCurrencies "EUR/USD" = some p ∧
      getCurrencyPairBySymbol
          (updateCurrencyMargin seededCurrencies 2000 "EUR/USD" 2) "EUR/USD"
        = some p' ∧
      p'.margin = 2 ∧ p'.updatedAt = 2000 ∧
      p'.rate = p.rate ∧ p'.change = p.change ∧
      p'.changePercent = p.changePercent ∧
      p'.id = p.id ∧ p'.symbol = p.symbol ∧
      p'.base = p.base ∧ p'.quote = p.quote) ∧
    updateCurrencyMargin emptyCurrencies 2000 "EUR/USD" 2 = emptyCurrencies :=
  ⟨(updateCurrencyMargin_frame seededCurrencies 2000 "EUR/USD" 2).1
      (by decide!),
   (updateCurrencyMargin_frame emptyCurrencies 2000 "EUR/USD" 2).2
      (by decide)⟩

/-- Witness for C3 (amended): refreshing SPX over the seeded index table
replaces the row with the count unchanged, and both uniqueness invariants
hold after the two-upsert sequence from empty. -/
theorem upsertMarketIndex_symbol_keyed_witness :
    (∃ p t', seededIndices1.rows.find?
          (fun r => r.symbol == idxSp500v2.symbol) = some p ∧
      upsertMarketIndex seededIndices1 2000 idxSp500v2
        = Except.ok (t', overwriteIndex p idxSp500v2 2000) ∧
      t'.rows.length = seededIndices1.rows.length ∧
      (overwriteIndex p idxSp500v2 2000).id = p.id ∧
      (overwriteIndex p idxSp500v2 2000).name = idxSp500v2.name ∧
      (overwriteIndex p idxSp500v2 2000).symbol = idxSp500v2.symbol ∧
      (overwriteIndex p idxSp500v2 2000).value = idxSp500v2.value ∧
      (overwriteIndex p idxSp500v2 2000).change = idxSp500v2.change ∧
      (overwriteIndex p idxSp500v2 2000).changePercent
        = idxSp500v2.changePercent ∧
      (overwriteIndex p idxSp500v2 2000).updatedAt = 2000) ∧
    IndicesUnique
      (applyIndexUpserts emptyIndices [(1000, idxSp500), (2000, idxSp500v2)]) :=
  ⟨(upsertMarketIndex_symbol_keyed seededIndices1 2000 idxSp500v2).1
      (by decide!) (by decide!),
   (upsertMarketIndex_symbol_keyed seededIndices1 2000 idxSp500v2).2.2.2.2
      [(1000, idxSp500), (2000, idxSp500v2)]⟩

/-- Witness for C4 (amended): with only another user's favorite present,
add/remove (and double-add/remove) of a fresh triple restore the view, and
removing an absent triple is a no-op. -/
theorem favorites_roundtrip_witness :
    getUserFavorites
        (removeUserFavorite
          (addUserFavorite favTable2 10 ⟨"u1", "stock", "AAPL"⟩).1
          "u1" "stock" "AAPL") "u1"
      = getUserFavorites favTable2 "u1" ∧
    getUserFavorites
        (removeUserFavorite
          (addUserFavorite
            (addUserFavorite favTable2 10 ⟨"u1", "stock", "AAPL"⟩).1 20
            ⟨"u1", "stock", "AAPL"⟩).1 "u1" "stock" "AAPL") "u1"
      = getUserFavorites favTable2 "u1" ∧
    removeUserFavorite favTable2 "u1" "stock" "AAPL" = favTable2 :=
  favorites_roundtrip favTable2 10 20 "u1" "stock" "AAPL" (by decide)

/-- Witness for C6: a non-admin caller gets 403; an admin caller gets 400
for a negative and for a missing margin (store untouched), and 200 for a
valid margin. -/
theorem putMarginHandler_statuses_witness :
    putMarginHandler usersTable1 seededCurrencies 2000 "u1" "EUR/USD"
        (JsonValue.num 1) = ⟨403, seededCurrencies, false⟩ ∧
    putMarginHandler usersTable1 seededCurrencies 2000 "a1" "EUR/USD"
        (JsonValue.num (-1)) = ⟨400, seededCurrencies, false⟩ ∧
    putMarginHandler usersTable1 seededCurrencies 2000 "a1" "EUR/USD"
        JsonValue.missing = ⟨400, seededCurrencies, false⟩ ∧
    putMarginHandler usersTable1 seededCurrencies 2000 "a1" "EUR/USD"
        (JsonValue.num (1/2))
      = ⟨200, updateCurrencyMargin seededCurrencies 2000 "EUR/USD" (1/2),
          true⟩ :=
  ⟨(putMarginHandler_statuses usersTable1 seededCurrencies 2000 "u1"
      "EUR/USD" (JsonValue.num 1)).1 (by decide),
   ((putMarginHandler_statuses usersTable1 seededCurrencies 2000 "a1"
      "EUR/USD" (JsonValue.num (-1))).2 (by decide)).1 (-1) rfl (by decide!),
   ((putMarginHandler_statuses usersTable1 seededCurrencies 2000 "a1"
      "EUR/USD" JsonValue.missing).2 (by decide)).2.1
     (fun q h => JsonValue.noConfusion h),
   ((putMarginHandler_statuses usersTable1 seededCurrencies 2000 "a1"
      "EUR/USD" (JsonValue.num (1/2))).2 (by decide)).2.2 (1/2) rfl
     (by decide!)⟩

/-- Witness for C7: a connection that ticked once and then closed pushes
nothing on two later timer firings, and stepping one registry entry leaves
every other untouched. -/
theorem connClose_no_further_pushes_witness :
    (connStep connInit WsEvent.closeEvt).1.timerActive = false ∧
    (connStep connInit WsEvent.closeEvt).2.push = none ∧
    (∀ o ∈ (runConn ((runConn connInit ([tickOk] ++ [WsEvent.closeEvt])).1)
        [tickOk, tickOk]).2, o.push = none) ∧
    (∀ (sys : Nat → ConnState) (i j : Nat) (e : WsEvent), j ≠ i →
        (sysStep sys i e).1 j = sys j) :=
  connClose_no_further_pushes connInit [tickOk] [tickOk, tickOk]
    WsEvent.closeEvt (Or.inl rfl)

/-- Witness for C8: a tick that cannot read the stocks list logs, pushes
nothing and leaves the armed state intact; the next healthy tick pushes a
full envelope. -/
theorem tick_failure_skips_and_keeps_timer_witness :
    (connStep connInit (WsEvent.tick emptyDB availNoStocks true 3000)).2.push
      = none ∧
    (connStep connInit
        (WsEvent.tick emptyDB availNoStocks true 3000)).2.loggedError = true ∧
    (connStep connInit (WsEvent.tick emptyDB availNoStocks true 3000)).1
      = connInit ∧
    (connStep connInit
        (WsEvent.tick emptyDB availNoStocks true 3000)).1.timerActive = true ∧
    (∀ db2 a2 now2, a2.allOk = true →
        (connStep
            (connStep connInit
              (WsEvent.tick emptyDB availNoStocks true 3000)).1
            (WsEvent.tick db2 a2 true now2)).2.push
          = some ⟨"market_update",
              ⟨getStocks db2.stocks, getCurrencyPairs db2.currencies,
               getMarketIndices db2.indices,
               getNewsArticles db2.news (some 10)⟩, now2⟩) ∧
    (∀ e, (connStep connInit e).1.timerActive = false →
        e = WsEvent.closeEvt ∨ e = WsEvent.errorEvt) :=
  tick_failure_skips_and_keeps_timer connInit emptyDB availNoStocks true 3000
    rfl rfl

/-- Witness for C10: on the empty store with all reads available and an
open transport the full envelope goes out; with a failed read, or a
non-open transport, nothing goes out. -/
theorem sendMarketUpdate_all_or_nothing_witness :
    (sendMarketUpdate emptyDB availAll true 4000).push
      = some ⟨"market_update",
          ⟨getStocks emptyDB.stocks, getCurrencyPairs emptyDB.currencies,
           getMarketIndices emptyDB.indices,
           getNewsArticles emptyDB.news (some 10)⟩, 4000⟩ ∧
    (sendMarketUpdate emptyDB availNoStocks true 4000).push = none ∧
    (sendMarketUpdate emptyDB availAll false 4000).push = none :=
  ⟨(sendMarketUpdate_all_or_nothing emptyDB availAll true 4000).1 rfl rfl,
   (sendMarketUpdate_all_or_nothing emptyDB availNoStocks true 4000).2.1 rfl,
   (sendMarketUpdate_all_or_nothing emptyDB availAll false 4000).2.2.1 rfl⟩
